import Mathlib

/-!
Verification of the ClaudeWire repository: a shallow embedding of its
OutputParser (`parser.ts`), StreamDispatcher (`ThreadStreamer`),
ProcessWrapper (`ClaudeCodeWrapper`), SessionManager and ProjectManager,
with theorems settling the spec claims C1-C10.

Strings are embedded as `List Char`.  Timers and I/O are modelled as
explicit state / environment parameters.
-/

namespace ClaudeWire

/-! ## Character classes and JS string primitives -/

/-- The JavaScript `String.prototype.trim` whitespace class (WhiteSpace and
LineTerminator code points). -/
def isJsWhitespace (c : Char) : Bool :=
  c = ' ' || c = '\t' || c = '\n' || (c.toNat = 11) || (c.toNat = 12) ||
  c = '\r' || (c.toNat = 0xA0) || (c.toNat = 0x1680) ||
  (0x2000 ≤ c.toNat && c.toNat ≤ 0x200A) || (c.toNat = 0x2028) ||
  (c.toNat = 0x2029) || (c.toNat = 0x202F) || (c.toNat = 0x205F) ||
  (c.toNat = 0x3000) || (c.toNat = 0xFEFF)

/-- JS `trimStart()`. -/
def trimStartL (l : List Char) : List Char := l.dropWhile isJsWhitespace

/-- JS `trimEnd()`. -/
def trimEndL (l : List Char) : List Char :=
  (l.reverse.dropWhile isJsWhitespace).reverse

/-- JS `trim()`. -/
def trimL (l : List Char) : List Char := trimEndL (trimStartL l)

/-- Helper for `lastIndexOfFrom`: scan the haystack left to right keeping the
greatest index `≤ fromIdx` at which `needle` occurs. -/
def lastIndexOfGo (needle : List Char) (fromIdx : Nat) :
    List Char → Nat → Option Nat → Option Nat
  | [], _, best => best
  | s@(_ :: t), i, best =>
    let best' := if i ≤ fromIdx && needle.isPrefixOf s then some i else best
    lastIndexOfGo needle fromIdx t (i + 1) best'

/-- JS `hay.lastIndexOf(needle, fromIdx)`: the greatest index `i ≤ fromIdx`
such that `needle` occurs in `hay` starting at `i` (`none` for `-1`). -/
def lastIndexOfFrom (hay needle : List Char) (fromIdx : Nat) : Option Nat :=
  lastIndexOfGo needle fromIdx hay 0 none

/-! ## `chunkText` (parser.ts lines 98-147)

The three float comparisons `breakPoint > maxLength * 0.5` /
`* 0.3` are modelled over the rationals (`2*p > maxLen`, `10*p > 3*maxLen`);
the IEEE rounding of `0.3` can shift the chosen break point at a few exact
thresholds but never affects which properties below hold. -/

/-- Space-break fallback, then hard cut (parser.ts lines 130-140). -/
def breakPointSpace (remaining : List Char) (maxLen : Nat) : Nat :=
  match lastIndexOfFrom remaining [' '] maxLen with
  | some p => if 10 * p > 3 * maxLen then p else maxLen
  | none => maxLen

/-- Line-break fallback (parser.ts lines 121-127). -/
def breakPointLine (remaining : List Char) (maxLen : Nat) : Nat :=
  match lastIndexOfFrom remaining ['\n'] maxLen with
  | some p => if 10 * p > 3 * maxLen then p else breakPointSpace remaining maxLen
  | none => breakPointSpace remaining maxLen

/-- Break-point selection (parser.ts lines 112-140): blank-line boundary at
more than 50% of `maxLen`, else line / word boundary at more than 30%, else a
hard cut at `maxLen`. -/
def breakPointOf (remaining : List Char) (maxLen : Nat) : Nat :=
  match lastIndexOfFrom remaining ['\n', '\n'] maxLen with
  | some p => if 2 * p > maxLen then p else breakPointLine remaining maxLen
  | none => breakPointLine remaining maxLen

/-- The `while (remaining.length > 0)` loop of `chunkText`, with explicit
fuel; the source loop does not terminate when `maxLen = 0` (the hard cut
makes no progress), which fuel exhaustion (`none`) captures. -/
def chunkTextGo : Nat → List Char → Nat → Option (List (List Char))
  | 0, _, _ => none
  | fuel + 1, remaining, maxLen =>
    if remaining.isEmpty then some []
    else if remaining.length ≤ maxLen then some [remaining]
    else
      (chunkTextGo fuel
          (trimStartL (remaining.drop (breakPointOf remaining maxLen)))
          maxLen).map
        (remaining.take (breakPointOf remaining maxLen) :: ·)

/-- `chunkText(text, maxLength)` (parser.ts lines 98-147). -/
def chunkText (text : List Char) (maxLen : Nat) : Option (List (List Char)) :=
  if text.length ≤ maxLen then some [text]
  else chunkTextGo (text.length + 1) text maxLen

/-- Reassembly used to state the chunking round-trip: interleave the returned
pieces with the whitespace runs trimmed from each continuation piece. -/
def joinInterleave : List (List Char) → List (List Char) → List Char
  | [], _ => []
  | [c], _ => c
  | c :: cs, w :: ws => c ++ w ++ joinInterleave cs ws
  | c :: cs, [] => c ++ joinInterleave cs []

/-! ## `cleanTerminalOutput` (parser.ts lines 13-32)

The function composes the third-party `strip-ansi` library with five
repository-local regex replacements and a final `trim()`. -/

/-- CSI parameter byte `0x30-0x3F`. -/
def isCsiParamByte (c : Char) : Bool := 0x30 ≤ c.toNat && c.toNat ≤ 0x3F

/-- CSI intermediate byte `0x20-0x2F`. -/
def isCsiInterByte (c : Char) : Bool := 0x20 ≤ c.toNat && c.toNat ≤ 0x2F

/-- CSI final byte `0x40-0x7E`. -/
def isCsiFinalByte (c : Char) : Bool := 0x40 ≤ c.toNat && c.toNat ≤ 0x7E

/-- Consume the body of a CSI sequence (parameter bytes, then intermediate
bytes, then one final byte); `some rest` on success. -/
def afterCsi (l : List Char) : Option (List Char) :=
  match (l.dropWhile isCsiParamByte).dropWhile isCsiInterByte with
  | c :: rest => if isCsiFinalByte c then some rest else none
  | [] => none

/-- Modelled from the spec: the `strip-ansi` npm dependency is not part of
this repository; per the spec, `stripControlSequences` "removes color/cursor
ANSI codes", modelled here as deletion of every well-formed CSI sequence
(introduced by `ESC [` or by the single byte `0x9B`).  Fuel is the input
length; every step consumes at least one character so the fuel never runs
out on the initial call. -/
def stripAnsiGo : Nat → List Char → List Char
  | 0, l => l
  | _ + 1, [] => []
  | fuel + 1, c :: rest =>
    if c = '\x1b' then
      match rest with
      | '[' :: r2 =>
        match afterCsi r2 with
        | some r3 => stripAnsiGo fuel r3
        | none => c :: stripAnsiGo fuel rest
      | _ => c :: stripAnsiGo fuel rest
    else if c = '\x9b' then
      match afterCsi rest with
      | some r3 => stripAnsiGo fuel r3
      | none => c :: stripAnsiGo fuel rest
    else c :: stripAnsiGo fuel rest

/-- `stripAnsi(text)` (spec-modelled, see `stripAnsiGo`). -/
def stripAnsi (l : List Char) : List Char := stripAnsiGo l.length l

/-- `replace(/\r(?!\n)/g, '')`: remove every carriage return not directly
followed by a newline (parser.ts line 17). -/
def removeCr : List Char → List Char
  | [] => []
  | c :: t =>
    if c = '\r' ∧ t.head? ≠ some '\n' then removeCr t else c :: removeCr t

/-- `replace(/\0/g, '')`: remove NUL bytes (parser.ts line 20). -/
def removeNul (l : List Char) : List Char := l.filter (fun c => c != '\x00')

/-- Position just after the first BEL (`\x07`) byte, if any. -/
def findAfterBel : List Char → Option (List Char)
  | [] => none
  | c :: t => if c = '\x07' then some t else findAfterBel t

/-- `replace(/\x1b\][^\x07]*\x07/g, '')`: remove OSC sequences
(parser.ts line 23).  A leftmost match at `ESC ]` extends to the first BEL;
with no BEL the match attempt fails and scanning resumes after the ESC. -/
def removeOscGo : Nat → List Char → List Char
  | 0, l => l
  | _ + 1, [] => []
  | fuel + 1, c :: rest =>
    if c = '\x1b' ∧ rest.head? = some ']' then
      match findAfterBel rest.tail with
      | some r => removeOscGo fuel r
      | none => c :: removeOscGo fuel rest
    else c :: removeOscGo fuel rest

/-- OSC-sequence removal (parser.ts line 23). -/
def removeOsc (l : List Char) : List Char := removeOscGo l.length l

/-- Position just after the first `ESC \` terminator, where the scanned
body may not contain a bare ESC (the `[^\x1b]*` class): if the first ESC
found is not followed by a backslash the match fails (`none`). -/
def findAfterSt : List Char → Option (List Char)
  | [] => none
  | '\x1b' :: '\\' :: t => some t
  | '\x1b' :: _ => none
  | _ :: t => findAfterSt t

/-- `replace(/\x1bP[^\x1b]*\x1b\\/g, '')`: remove DCS sequences
(parser.ts line 26). -/
def removeDcsGo : Nat → List Char → List Char
  | 0, l => l
  | _ + 1, [] => []
  | fuel + 1, c :: rest =>
    if c = '\x1b' ∧ rest.head? = some 'P' then
      match findAfterSt rest.tail with
      | some r => removeDcsGo fuel r
      | none => c :: removeDcsGo fuel rest
    else c :: removeDcsGo fuel rest

/-- DCS-sequence removal (parser.ts line 26). -/
def removeDcs (l : List Char) : List Char := removeDcsGo l.length l

/-- The replacement for one maximal run of `p` newlines under
`replace(/\n{3,}/g, '\n\n')`. -/
def nlRun (p : Nat) : List Char :=
  if 3 ≤ p then ['\n', '\n'] else List.replicate p '\n'

/-- Scanner for the newline-collapsing replacement; `p` counts the pending
run of newlines already consumed. -/
def collapseNlGo : Nat → List Char → List Char
  | p, [] => nlRun p
  | p, '\n' :: t => collapseNlGo (p + 1) t
  | p, c :: t => nlRun p ++ c :: collapseNlGo 0 t

/-- `replace(/\n{3,}/g, '\n\n')`: collapse runs of three or more newlines
to exactly two (parser.ts line 29). -/
def collapseNl (l : List Char) : List Char := collapseNlGo 0 l

/-- `cleanTerminalOutput(text)` (parser.ts lines 13-32): strip ANSI codes,
drop lone carriage returns, drop NUL bytes, drop OSC then DCS sequences,
collapse newline runs, and trim. -/
def cleanTerminalOutput (l : List Char) : List Char :=
  trimL (collapseNl (removeDcs (removeOsc (removeNul (removeCr (stripAnsi l))))))

/-- No ESC (`0x1B`) or CSI (`0x9B`) byte occurs in the string; on this
domain the ANSI/OSC/DCS removals are inert. -/
def escFree (l : List Char) : Bool := l.all (fun c => c != '\x1b' && c != '\x9b')

/-- Specification predicate: no NUL byte. -/
def noNul (l : List Char) : Bool := l.all (fun c => c != '\x00')

/-- Specification predicate: every carriage return is directly followed by
a newline (the fixed points of `removeCr`). -/
def crOk : List Char → Bool
  | [] => true
  | [c] => c != '\r'
  | c :: d :: t => (c != '\r' || d == '\n') && crOk (d :: t)

/-- Specification predicate: no three consecutive newlines (the fixed
points of `collapseNl`). -/
def collapsedNl : List Char → Bool
  | c :: d :: e :: t =>
    !(c == '\n' && d == '\n' && e == '\n') && collapsedNl (d :: e :: t)
  | _ => true

/-! ## ThreadStreamer (thread-streamer.ts, src/unnamed/part_001)

One dispatcher instance per session.  Destination (Slack) I/O is modelled
by an environment: `env` is the list of outcomes of successive destination
calls (indexed by a running call counter), and each operation returns the
trace of calls it made.  Timers are booleans (armed / not armed). -/

/-- Outcome of one destination call: success (with the posted unit's `ts`),
the `message_not_found` error, or any other error. -/
inductive DestOutcome
  | ok (ts : Nat)
  | notFound
  | otherErr
deriving DecidableEq

/-- A destination call made by the dispatcher: `chat.update` of an existing
unit, or `chat.postMessage` of a new unit. -/
inductive DestCall
  | update (ts : Nat) (text : List Char)
  | post (text : List Char)
deriving DecidableEq

/-- The mutable fields of a `ThreadStreamer` (lines 8-12). -/
structure StreamerState where
  buffer : List Char
  lastMessageTs : Option Nat
  isFinalized : Bool
  messageCount : Nat
  debounceTimer : Bool
deriving DecidableEq

/-- Outcome of the `i`-th destination call under environment `env`
(defaulting to success when the environment list is exhausted). -/
def outcomeAt (env : List DestOutcome) (i : Nat) : DestOutcome :=
  env.getD i (DestOutcome.ok 0)

/-- The error kind carried by a throw out of the `try` block of `flush`. -/
inductive SlackErr
  | notFound
  | other
deriving DecidableEq

/-- `append(text)` (lines 21-36): no-op when finalized, else extend the
buffer and (re)arm the debounce timer. -/
def append (st : StreamerState) (text : List Char) : StreamerState :=
  if st.isFinalized then st
  else { st with buffer := st.buffer ++ text, debounceTimer := true }

/-- The `for` loop of `flush` (lines 65-76) posting `chunks[0..len-2]` after
the last chunk, incrementing `messageCount` after each successful post;
the first failure escapes to the `catch`.  Returns the final state, the
trace of calls, the next call index, and the escaped error if any. -/
def postLoop (env : List DestOutcome) :
    StreamerState → Nat → List (List Char) →
      StreamerState × List DestCall × Nat × Option SlackErr
  | st, i, [] => (st, [], i, none)
  | st, i, c :: cs =>
    match outcomeAt env i with
    | DestOutcome.ok _ =>
      let r := postLoop env
        { st with messageCount := st.messageCount + 1 } (i + 1) cs
      (r.1, DestCall.post c :: r.2.1, r.2.2.1, r.2.2.2)
    | DestOutcome.notFound =>
      (st, [DestCall.post c], i + 1, some SlackErr.notFound)
    | DestOutcome.otherErr =>
      (st, [DestCall.post c], i + 1, some SlackErr.other)

/-- The `try` block of `flush` (lines 44-77): update the remembered unit in
place when exactly one chunk resulted, a unit is remembered and fewer than
5 units were posted; otherwise post the last chunk as a new unit (recording
its `ts` and incrementing the counter) and then post every earlier chunk. -/
def flushBody (st : StreamerState) (env : List DestOutcome) (i : Nat)
    (chunks : List (List Char)) (content : List Char) :
    StreamerState × List DestCall × Nat × Option SlackErr :=
  if h : st.lastMessageTs.isSome ∧ chunks.length = 1 ∧ st.messageCount < 5
  then
    let ts := st.lastMessageTs.get h.1
    match outcomeAt env i with
    | DestOutcome.ok _ => (st, [DestCall.update ts content], i + 1, none)
    | DestOutcome.notFound =>
      (st, [DestCall.update ts content], i + 1, some SlackErr.notFound)
    | DestOutcome.otherErr =>
      (st, [DestCall.update ts content], i + 1, some SlackErr.other)
  else
    match outcomeAt env i with
    | DestOutcome.ok ts =>
      let st1 := { st with lastMessageTs := some ts,
                           messageCount := st.messageCount + 1 }
      if chunks.length > 1 then
        let r := postLoop env st1 (i + 1) chunks.dropLast
        (r.1, DestCall.post content :: r.2.1, r.2.2.1, r.2.2.2)
      else (st1, [DestCall.post content], i + 1, none)
    | DestOutcome.notFound =>
      (st, [DestCall.post content], i + 1, some SlackErr.notFound)
    | DestOutcome.otherErr =>
      (st, [DestCall.post content], i + 1, some SlackErr.other)

/-- `flush()` (lines 38-87): no-op on a whitespace-only buffer; otherwise
chunk the buffer at 3900, run the `try` body, and in the `catch`, when the
error is `message_not_found` and a unit is still remembered, clear the
remembered `ts` and recurse.  The source recursion is modelled with fuel;
the buffer is never cleared. -/
def flushGo : Nat → StreamerState → List DestOutcome → Nat →
    StreamerState × List DestCall × Nat
  | 0, st, _, i => (st, [], i)
  | fuel + 1, st, env, i =>
    if (trimL st.buffer).isEmpty then (st, [], i)
    else
      match chunkText st.buffer 3900 with
      | none => (st, [], i)
      | some chunks =>
        let content := chunks.getLast?.getD []
        let r := flushBody st env i chunks content
        match r.2.2.2 with
        | none => (r.1, r.2.1, r.2.2.1)
        | some SlackErr.other => (r.1, r.2.1, r.2.2.1)
        | some SlackErr.notFound =>
          if r.1.lastMessageTs.isSome then
            let st2 := { r.1 with lastMessageTs := none }
            let r2 := flushGo fuel st2 env r.2.2.1
            (r2.1, r.2.1 ++ r2.2.1, r2.2.2)
          else (r.1, r.2.1, r.2.2.1)

/-- `finalize(status?)` (lines 89-112): cancel the timer, flush, mark
finalized, clear the buffer, then post the status text if supplied (its
failure is swallowed; `messageCount` is not incremented). -/
def finalize (fuel : Nat) (st : StreamerState) (env : List DestOutcome)
    (status : Option (List Char)) : StreamerState × List DestCall × Nat :=
  let r := flushGo fuel { st with debounceTimer := false } env 0
  let st2 := { r.1 with isFinalized := true, buffer := [] }
  match status with
  | none => (st2, r.2.1, r.2.2)
  | some s => (st2, r.2.1 ++ [DestCall.post s], r.2.2 + 1)

/-- `reset()` (lines 129-138). -/
def reset (_ : StreamerState) : StreamerState :=
  { buffer := [], lastMessageTs := none, isFinalized := false,
    messageCount := 0, debounceTimer := false }

/-! ## ClaudeCodeWrapper (wrapper.ts, src/unnamed/part_007 lines 148-372)

The pseudo-terminal handle is a boolean (`pty ≠ null`), writes to the
subprocess are recorded in `ptyWrites`, and the race between natural exit
and the 1s forced-kill deadline inside `terminate` is an environment
boolean `naturalExit`. -/

/-- `ClaudeProcessStatus`. -/
inductive ProcStatus
  | starting
  | ready
  | busy
  | terminated
deriving DecidableEq

/-- Events emitted by the wrapper that the claims observe. -/
inductive WEvent
  | output (text : List Char)
  | exited (code : Int)
deriving DecidableEq

/-- The mutable fields of a `ClaudeCodeWrapper` (lines 167-171). -/
structure WrapperState where
  pty : Bool
  status : ProcStatus
  outputBuffer : List Char
  debounceTimer : Bool
  readyTimeout : Bool
  ptyWrites : List (List Char)
deriving DecidableEq

/-- `isAlive()` (lines 190-192): a live handle exists and the status is not
`terminated`. -/
def isAlive (w : WrapperState) : Bool :=
  w.pty && w.status != ProcStatus.terminated

/-- `handleExit(exitCode)` (lines 265-291): set status `terminated`, cancel
both timers, flush any remaining (non-whitespace) accumulator content as a
final output event, emit the exit event, release the handle. -/
def handleExit (w : WrapperState) (exitCode : Int) :
    WrapperState × List WEvent :=
  let w1 := { w with status := ProcStatus.terminated,
                     debounceTimer := false, readyTimeout := false }
  if (trimL w.outputBuffer).isEmpty then
    ({ w1 with pty := false }, [WEvent.exited exitCode])
  else
    ({ w1 with outputBuffer := [], pty := false },
      (if (cleanTerminalOutput w.outputBuffer).isEmpty then []
        else [WEvent.output (cleanTerminalOutput w.outputBuffer)]) ++
        [WEvent.exited exitCode])

/-- `terminate()` (lines 327-365): return immediately when the handle is
already gone; otherwise cancel timers, write `Ctrl+C` and `/exit`, then
either the subprocess exits naturally before the 1s deadline (the exit
event runs `handleExit` and resolves the call) or the deadline fires, the
handle is killed and the status forced to `terminated`. -/
def terminate (w : WrapperState) (naturalExit : Bool) (exitCode : Int) :
    WrapperState × List WEvent :=
  if w.pty = false then (w, [])
  else
    let w1 := { w with debounceTimer := false, readyTimeout := false,
                       ptyWrites := w.ptyWrites ++
                         [['\x03'], "/exit\n".toList] }
    if naturalExit then handleExit w1 exitCode
    else ({ w1 with pty := false, status := ProcStatus.terminated }, [])

/-- `sendInput(text)` (lines 293-302): no-op when dead, else write
`text + "\n"` and set status `busy`. -/
def wSendInput (w : WrapperState) (text : List Char) : WrapperState :=
  if w.pty = false || w.status == ProcStatus.terminated then w
  else { w with status := ProcStatus.busy,
                ptyWrites := w.ptyWrites ++ [text ++ ['\n']] }

/-- The control keys of `sendControl` (line 304). -/
inductive ControlKey
  | yes
  | no
  | escape
  | ctrlC
deriving DecidableEq

/-- The raw bytes written for each control key (lines 311-324). -/
def controlBytes : ControlKey → List Char
  | ControlKey.yes => ['y']
  | ControlKey.no => ['n']
  | ControlKey.escape => ['\x1b']
  | ControlKey.ctrlC => ['\x03']

/-- `sendControl(key)` (lines 304-325): no-op when dead, else write the raw
byte(s); the status is not changed. -/
def wSendControl (w : WrapperState) (key : ControlKey) : WrapperState :=
  if w.pty = false || w.status == ProcStatus.terminated then w
  else { w with ptyWrites := w.ptyWrites ++ [controlBytes key] }

/-! ## ProjectManager (projects.ts, src/unnamed/part_005 lines 146-231)

`path.resolve` depends on the process working directory and the filesystem
is out of scope, so absolute resolution is an environment-supplied function
`resolve`; `path.join(baseDir, sanitized)` is modelled as
`baseDir ++ "/" ++ sanitized` and the `mkdirSync` side effects are
dropped (they do not affect the returned value). -/

/-- `userId.replace(/[^a-zA-Z0-9_-]/g, '_')` (line 170). -/
def sanitizeUserId (userId : String) : String :=
  String.mk (userId.toList.map (fun c =>
    if ('a' ≤ c ∧ c ≤ 'z') ∨ ('A' ≤ c ∧ c ≤ 'Z') ∨ ('0' ≤ c ∧ c ≤ '9') ∨
        c = '_' ∨ c = '-' then c else '_'))

/-- `getUserProjectDir(userId)` (lines 168-179). -/
def getUserProjectDir (baseDir : String) (userId : String) : String :=
  baseDir ++ "/" ++ sanitizeUserId userId

/-- `validateProjectPath(requestedPath, userId)` (lines 181-198): resolve
the requested path and allow it iff the resolved string starts with the
user's directory string. -/
def validateProjectPath (baseDir : String) (resolve : String → String)
    (requestedPath userId : String) : Option String :=
  let userDir := getUserProjectDir baseDir userId
  let resolved := resolve requestedPath
  if userDir.toList.isPrefixOf resolved.toList then some resolved else none

/-! ## SessionManager (manager.ts, src/unnamed/part_003)

The Redis store (part_006) keeps one record per session id and a reverse
index from user id to session id; `setSession` writes both and
`deleteSession` deletes both.  TTLs and wall-clock time are not modelled;
timestamps are environment-supplied strings.  Maps are association
lists. -/

/-- `Session` (session/types). -/
inductive SessionStatus
  | starting
  | active
  | waiting_input
  | terminated
deriving DecidableEq

structure Session where
  id : String
  userId : String
  userName : String
  channelId : String
  threadTs : String
  projectPath : String
  status : SessionStatus
  createdAt : String
  lastActivityAt : String
deriving DecidableEq

/-- Association-list lookup (leftmost binding wins, as after overwrite). -/
def lookupStr {α : Type} (m : List (String × α)) (k : String) : Option α :=
  (m.find? (fun kv => kv.1 == k)).map (fun kv => kv.2)

/-- Association-list overwrite. -/
def insertStr {α : Type} (m : List (String × α)) (k : String) (v : α) :
    List (String × α) :=
  (k, v) :: m.filter (fun kv => kv.1 != k)

/-- Association-list deletion. -/
def eraseStr {α : Type} (m : List (String × α)) (k : String) :
    List (String × α) :=
  m.filter (fun kv => kv.1 != k)

/-- The Redis store contents (part_006 lines 42-104): `session:<id>`
records and the `session:user:<userId>` reverse index. -/
structure Store where
  records : List (String × Session)
  userIndex : List (String × String)
deriving DecidableEq

/-- `setSession(sessionId, userId, data, ttl)`: write both keys. -/
def setSession (s : Store) (sessionId userId : String) (data : Session) :
    Store :=
  { records := insertStr s.records sessionId data,
    userIndex := insertStr s.userIndex userId sessionId }

/-- `deleteSession(sessionId, userId)`: delete both keys. -/
def deleteSession (s : Store) (sessionId userId : String) : Store :=
  { records := eraseStr s.records sessionId,
    userIndex := eraseStr s.userIndex userId }

/-- The SessionManager state: the store, the in-memory process map, the
armed inactivity timers, and the audit log (SQLite) contents. -/
structure MgrState where
  store : Store
  processes : List (String × WrapperState)
  timers : List String
  auditStarts : List String
  auditEnds : List (String × Int)
  auditMessages : List (String × String × String)
deriving DecidableEq

/-- The closed error taxonomy used by the manager. -/
inductive MgrErr
  | sessionExists (id : String)
  | noSession (userId : String)
  | spawnError
deriving DecidableEq

/-- `cleanupSession(sessionId, userId)` (part_003 lines 247-260): clear the
timer, drop the process reference, delete both store keys. -/
def cleanupSession (st : MgrState) (sessionId userId : String) : MgrState :=
  { st with
    timers := st.timers.filter (fun s => s != sessionId),
    processes := eraseStr st.processes sessionId,
    store := deleteSession st.store sessionId userId }

/-- `getSessionForUser(userId)` (lines 30-46): resolve the session id from
the reverse index, load the record, and check the in-memory process for
liveness; a missing or dead process triggers cleanup and returns `none`. -/
def getSessionForUser (st : MgrState) (userId : String) :
    Option Session × MgrState :=
  match lookupStr st.store.userIndex userId with
  | none => (none, st)
  | some sessionId =>
    match lookupStr st.store.records sessionId with
    | none => (none, st)
    | some session =>
      match lookupStr st.processes sessionId with
      | some w =>
        if isAlive w then (some session, st)
        else (none, cleanupSession st sessionId userId)
      | none => (none, cleanupSession st sessionId userId)

/-- `resetSessionTimeout(sessionId, userId)` (lines 276-294): clear the
existing timer and arm a new one. -/
def resetSessionTimeout (timers : List String) (sessionId : String) :
    List String :=
  sessionId :: timers.filter (fun s => s != sessionId)

/-- `CreateSessionOptions`. -/
structure CreateSessionOptions where
  userId : String
  userName : String
  channelId : String
  messageTs : String
  projectPath : Option String
deriving DecidableEq

/-- Environment for one `createSession` call: the generated `nanoid`, the
current timestamp, and whether `pty.spawn` succeeds. -/
structure CreateEnv where
  newId : String
  now : String
  spawnOk : Bool
deriving DecidableEq

/-- The working-directory resolution inside `createSession`
(lines 56-68): validate a requested path against the sandbox, falling back
to the user's default directory. -/
def resolveProjectPathOpt (baseDir : String) (resolve : String → String)
    (opts : CreateSessionOptions) : String :=
  match opts.projectPath with
  | some p =>
    match validateProjectPath baseDir resolve p opts.userId with
    | none => getUserProjectDir baseDir opts.userId
    | some v => v
  | none => getUserProjectDir baseDir opts.userId

/-- `ClaudeCodeWrapper.spawn()` (part_007 lines 194-238) as seen by the
manager: on success a live wrapper in status `starting` with the ready
timer armed; on failure the `ClaudeSpawnError` propagates (`none`). -/
def spawnWrapper (spawnOk : Bool) : Option WrapperState :=
  if spawnOk then
    some { pty := true, status := ProcStatus.starting, outputBuffer := [],
           debounceTimer := false, readyTimeout := true, ptyWrites := [] }
  else none

/-- `createSession(opts)` (part_003 lines 48-137): fail with
`SessionExists` when the user already has a live session; resolve the
working directory; spawn (a failure propagates before anything is
persisted); on success persist the record (status `starting`), track the
process, log session-start, arm the inactivity timer, and return the
session with status `active`. -/
def createSession (baseDir : String) (resolve : String → String)
    (st : MgrState) (opts : CreateSessionOptions) (env : CreateEnv) :
    Except MgrErr Session × MgrState :=
  match getSessionForUser st opts.userId with
  | (some existing, st1) =>
    (Except.error (MgrErr.sessionExists existing.id), st1)
  | (none, st1) =>
    let projectPath := resolveProjectPathOpt baseDir resolve opts
    let session : Session :=
      { id := env.newId, userId := opts.userId, userName := opts.userName,
        channelId := opts.channelId, threadTs := opts.messageTs,
        projectPath := projectPath, status := SessionStatus.starting,
        createdAt := env.now, lastActivityAt := env.now }
    match spawnWrapper env.spawnOk with
    | none => (Except.error MgrErr.spawnError, st1)
    | some w =>
      let st2 := { st1 with
        store := setSession st1.store session.id opts.userId session,
        processes := insertStr st1.processes session.id w,
        auditStarts := st1.auditStarts ++ [session.id],
        timers := resetSessionTimeout st1.timers session.id }
      (Except.ok { session with status := SessionStatus.active }, st2)

/-- `sendInput(userId, text)` (lines 139-169): resolve the live session and
process (throw `NoSession` otherwise), forward the input, refresh the
activity timestamp and status, re-persist, log the message, rearm the
timer. -/
def mSendInput (st : MgrState) (userId : String) (text : List Char)
    (now : String) : Except MgrErr Unit × MgrState :=
  match getSessionForUser st userId with
  | (none, st1) => (Except.error (MgrErr.noSession userId), st1)
  | (some session, st1) =>
    match lookupStr st1.processes session.id with
    | none => (Except.error (MgrErr.noSession userId), st1)
    | some w =>
      if isAlive w = false then (Except.error (MgrErr.noSession userId), st1)
      else
        let session1 := { session with lastActivityAt := now,
                                       status := SessionStatus.active }
        let st2 := { st1 with
          processes := insertStr st1.processes session.id
            (wSendInput w text),
          store := setSession st1.store session.id userId session1,
          auditMessages := st1.auditMessages ++
            [(session.id, "user", String.mk text)],
          timers := resetSessionTimeout st1.timers session.id }
        (Except.ok (), st2)

/-- `sendControl(userId, key)` (lines 171-195): unlike `sendInput`, a
missing live session or process makes the call return `false` — no
`NoSession` error is thrown; on success forward the key, refresh activity
(status `active` only on `y`/`n`), re-persist and rearm the timer,
returning `true`. -/
def mSendControl (st : MgrState) (userId : String) (key : ControlKey)
    (now : String) : Except MgrErr Bool × MgrState :=
  match getSessionForUser st userId with
  | (none, st1) => (Except.ok false, st1)
  | (some session, st1) =>
    match lookupStr st1.processes session.id with
    | none => (Except.ok false, st1)
    | some w =>
      if isAlive w = false then (Except.ok false, st1)
      else
        let session1 := { session with
          lastActivityAt := now,
          status := if key = ControlKey.yes ∨ key = ControlKey.no
            then SessionStatus.active else session.status }
        let st2 := { st1 with
          processes := insertStr st1.processes session.id
            (wSendControl w key),
          store := setSession st1.store session.id userId session1,
          timers := resetSessionTimeout st1.timers session.id }
        (Except.ok true, st2)

/-! ### Concrete states used in witnesses and counterexamples -/

/-- A live wrapper (spawned handle, status `ready`). -/
def wLive : WrapperState :=
  { pty := true, status := ProcStatus.ready, outputBuffer := [],
    debounceTimer := false, readyTimeout := true, ptyWrites := [] }

/-- A concrete stored session for user `U1`. -/
def sessEx : Session :=
  { id := "S1", userId := "U1", userName := "Ann", channelId := "C1",
    threadTs := "T1", projectPath := "/projects/U1",
    status := SessionStatus.active, createdAt := "t0",
    lastActivityAt := "t0" }

/-- A manager state holding one live session (`S1`) for user `U1`. -/
def stOneLive : MgrState :=
  { store := { records := [("S1", sessEx)], userIndex := [("U1", "S1")] },
    processes := [("S1", wLive)], timers := ["S1"], auditStarts := ["S1"],
    auditEnds := [], auditMessages := [] }

/-- The empty manager state. -/
def stEmpty : MgrState :=
  { store := { records := [], userIndex := [] }, processes := [],
    timers := [], auditStarts := [], auditEnds := [], auditMessages := [] }

/-- Concrete `createSession` options for user `U1`. -/
def optsEx : CreateSessionOptions :=
  { userId := "U1", userName := "Ann", channelId := "C1",
    messageTs := "T1", projectPath := none }

/-- A create environment whose `spawn` fails. -/
def envSpawnFail : CreateEnv :=
  { newId := "S2", now := "t1", spawnOk := false }

/-! ## Properties of `chunkText` (claim C3) -/

theorem breakPointSpace_pos (r : List Char) (maxLen : Nat) (hm : 1 ≤ maxLen) :
    1 ≤ breakPointSpace r maxLen := by
  unfold breakPointSpace
  split
  · split
    · omega
    · exact hm
  · exact hm

theorem breakPointLine_pos (r : List Char) (maxLen : Nat) (hm : 1 ≤ maxLen) :
    1 ≤ breakPointLine r maxLen := by
  unfold breakPointLine
  split
  · split
    · omega
    · exact breakPointSpace_pos r maxLen hm
  · exact breakPointSpace_pos r maxLen hm

theorem breakPointOf_pos (r : List Char) (maxLen : Nat) (hm : 1 ≤ maxLen) :
    1 ≤ breakPointOf r maxLen := by
  unfold breakPointOf
  split
  · split
    · omega
    · exact breakPointLine_pos r maxLen hm
  · exact breakPointLine_pos r maxLen hm

theorem trimStartL_length_le (l : List Char) :
    (trimStartL l).length ≤ l.length := by
  unfold trimStartL
  induction l with
  | nil => simp
  | cons a t ih =>
    by_cases h : isJsWhitespace a
    · rw [List.dropWhile_cons_of_pos h]
      exact Nat.le_trans ih (by simp)
    · rw [List.dropWhile_cons_of_neg h]

/-- Core round-trip invariant of the chunking loop: with positive `maxLen`
and enough fuel, the loop succeeds and the original text is recovered by
interleaving the pieces with the trimmed whitespace runs, plus a whitespace
run lost after the final piece. -/
theorem chunkTextGo_spec (maxLen : Nat) (hm : 1 ≤ maxLen) :
    ∀ fuel remaining, remaining.length < fuel →
      ∃ cs ws wend,
        chunkTextGo fuel remaining maxLen = some cs ∧
        ws.length = cs.length - 1 ∧
        (∀ w ∈ ws, w.all isJsWhitespace = true) ∧
        wend.all isJsWhitespace = true ∧
        joinInterleave cs ws ++ wend = remaining := by
  intro fuel
  induction fuel with
  | zero => intro r h; omega
  | succ fuel ih =>
    intro remaining hlen
    by_cases hemp : remaining.isEmpty
    · refine ⟨[], [], [], by simp [chunkTextGo, hemp], rfl, by simp, rfl, ?_⟩
      simp only [List.isEmpty_iff] at hemp
      simp [joinInterleave, hemp]
    · by_cases hle : remaining.length ≤ maxLen
      · refine ⟨[remaining], [], [], ?_, rfl, by simp, rfl, ?_⟩
        · simp [chunkTextGo, hemp, hle]
        · simp [joinInterleave]
      · -- loop step
        set bp := breakPointOf remaining maxLen with hbpdef
        have hbp : 1 ≤ bp := breakPointOf_pos remaining maxLen hm
        have hlen1 : 1 ≤ remaining.length := by
          cases remaining with
          | nil => simp at hemp
          | cons a t => simp
        have hrest : (trimStartL (remaining.drop bp)).length < fuel := by
          have h1 : (trimStartL (remaining.drop bp)).length ≤
              (remaining.drop bp).length := trimStartL_length_le _
          have h2 : (remaining.drop bp).length = remaining.length - bp := by
            simp
          omega
        obtain ⟨cs', ws', wend', hgo, hlw, hwsw, hwend, hjoin⟩ :=
          ih (trimStartL (remaining.drop bp)) hrest
        have hstep : chunkTextGo (fuel + 1) remaining maxLen =
            some (remaining.take bp :: cs') := by
          simp [chunkTextGo, hemp, hle, ← hbpdef, hgo]
        have hsplit : remaining.take bp ++
            ((remaining.drop bp).takeWhile isJsWhitespace ++
              trimStartL (remaining.drop bp)) = remaining := by
          rw [trimStartL, List.takeWhile_append_dropWhile, List.take_append_drop]
        have hwtw : ((remaining.drop bp).takeWhile isJsWhitespace).all
            isJsWhitespace = true := by
          rw [List.all_eq_true]
          intro x hx
          exact List.mem_takeWhile_imp hx
        cases cs' with
        | nil =>
          -- the remainder after the break was pure whitespace and is lost
          have hrest0 : joinInterleave [] ws' ++ wend' =
              trimStartL (remaining.drop bp) := hjoin
          refine ⟨[remaining.take bp],
            [], (remaining.drop bp).takeWhile isJsWhitespace ++ wend',
            hstep, rfl, by simp, ?_, ?_⟩
          · rw [List.all_append, hwtw, hwend]; rfl
          · simp only [joinInterleave] at hrest0 ⊢
            simp only [List.nil_append] at hrest0
            rw [← List.append_assoc, List.append_assoc, hrest0, hsplit]
        | cons c cs'' =>
          refine ⟨remaining.take bp :: c :: cs'',
            (remaining.drop bp).takeWhile isJsWhitespace :: ws', wend',
            hstep, ?_, ?_, hwend, ?_⟩
          · simp only [List.length_cons]
            simp only [List.length_cons] at hlw
            omega
          · intro w hw
            rcases List.mem_cons.mp hw with h | h
            · exact h ▸ hwtw
            · exact hwsw w h
          · have : joinInterleave (remaining.take bp :: c :: cs'')
                ((remaining.drop bp).takeWhile isJsWhitespace :: ws') =
                remaining.take bp ++
                  ((remaining.drop bp).takeWhile isJsWhitespace ++
                    joinInterleave (c :: cs'') ws') := by
              simp [joinInterleave]
            rw [this]
            simp only [List.append_assoc]
            simp only [List.append_assoc] at hjoin hsplit
            rw [hjoin]
            exact hsplit

/-- C3 (amended): for every `text` and every `maxLen ≥ 1` (for `maxLen = 0`
the source loop does not terminate on non-empty input), `chunk(text, maxLen)`
returns `[text]` whenever `len(text) ≤ maxLen`, and in general the original
text is reproduced by concatenating the returned pieces, re-inserting the
leading whitespace trimmed from each continuation piece, and re-appending
the whitespace trimmed after the final piece (which the claim as stated
omits, and which can be non-empty). -/
theorem chunkText_roundTrip (text : List Char) (maxLen : Nat)
    (hm : 1 ≤ maxLen) :
    (text.length ≤ maxLen → chunkText text maxLen = some [text]) ∧
    ∃ cs ws wend,
      chunkText text maxLen = some cs ∧
      ws.length = cs.length - 1 ∧
      (∀ w ∈ ws, w.all isJsWhitespace = true) ∧
      wend.all isJsWhitespace = true ∧
      joinInterleave cs ws ++ wend = text := by
  constructor
  · intro h; simp [chunkText, h]
  · by_cases h : text.length ≤ maxLen
    · exact ⟨[text], [], [], by simp [chunkText, h], rfl, by simp, rfl,
        by simp [joinInterleave]⟩
    · obtain ⟨cs, ws, wend, hgo, h1, h2, h3, h4⟩ :=
        chunkTextGo_spec maxLen hm (text.length + 1) text (by omega)
      exact ⟨cs, ws, wend, by simp [chunkText, h, hgo], h1, h2, h3, h4⟩

/-- Witness for `chunkText_roundTrip` at `text = "hello world"`,
`maxLen = 3`. -/
theorem chunkText_roundTrip_witness :
    (("hello world".toList.length ≤ 3 →
      chunkText "hello world".toList 3 = some ["hello world".toList]) ∧
    ∃ cs ws wend,
      chunkText "hello world".toList 3 = some cs ∧
      ws.length = cs.length - 1 ∧
      (∀ w ∈ ws, w.all isJsWhitespace = true) ∧
      wend.all isJsWhitespace = true ∧
      joinInterleave cs ws ++ wend = "hello world".toList) :=
  chunkText_roundTrip "hello world".toList 3 (by decide)

/-- C3 counterexample: `chunkText "a " 1` returns the single piece `"a"`;
the trailing space that the loop trimmed from the (empty) remainder is lost,
and with a single returned piece there is no continuation piece to re-insert
whitespace before, so no reassembly of the returned pieces reproduces
`"a "`. -/
theorem chunkText_counterexample :
    chunkText ['a', ' '] 1 = some [['a']] ∧
    joinInterleave [['a']] [] ≠ ['a', ' '] := by
  decide

/-! ## Properties of `cleanTerminalOutput` (claim C5) -/

theorem crOk_cons_of_ne (c : Char) (l : List Char) (h : c ≠ '\r') :
    crOk (c :: l) = crOk l := by
  cases l with
  | nil => simp [crOk, h]
  | cons d t => simp [crOk, h]

theorem crOk_tail (c : Char) (l : List Char) (h : crOk (c :: l) = true) :
    crOk l = true := by
  cases l with
  | nil => rfl
  | cons d t =>
    have := (Bool.and_eq_true _ _).mp h
    exact this.2

theorem crOk_cons_cr (l : List Char) (h : crOk ('\r' :: l) = true) :
    ∃ t, l = '\n' :: t := by
  cases l with
  | nil => simp [crOk] at h
  | cons d t =>
    refine ⟨t, ?_⟩
    have h1 := ((Bool.and_eq_true _ _).mp h).1
    simp at h1
    rw [h1]

theorem collapsedNl_tail (c : Char) (l : List Char)
    (h : collapsedNl (c :: l) = true) : collapsedNl l = true := by
  cases l with
  | nil => rfl
  | cons d t =>
    cases t with
    | nil => rfl
    | cons e r => exact ((Bool.and_eq_true _ _).mp h).2

theorem collapsedNl_short (l : List Char) (h : l.length ≤ 2) :
    collapsedNl l = true := by
  match l, h with
  | [], _ => rfl
  | [a], _ => rfl
  | [a, b], _ => rfl

theorem collapsedNl_cons_of_ne (c : Char) (l : List Char) (h : c ≠ '\n') :
    collapsedNl (c :: l) = collapsedNl l := by
  cases l with
  | nil => rfl
  | cons d t =>
    cases t with
    | nil => rfl
    | cons e r => simp [collapsedNl, h]

theorem collapsedNl_cons2_of_ne (c d : Char) (l : List Char) (h : d ≠ '\n') :
    collapsedNl (c :: d :: l) = collapsedNl (d :: l) := by
  cases l with
  | nil => rfl
  | cons e r => simp [collapsedNl, h]

theorem collapsedNl_append_left (xs ys : List Char)
    (h : collapsedNl (xs ++ ys) = true) : collapsedNl xs = true := by
  induction xs with
  | nil => rfl
  | cons x xs' ih =>
    cases xs' with
    | nil => rfl
    | cons d t =>
      cases t with
      | nil => rfl
      | cons e r =>
        have hx : collapsedNl (x :: d :: e :: (r ++ ys)) = true := h
        have h1 := ((Bool.and_eq_true _ _).mp hx).1
        have h2 : collapsedNl (d :: e :: r) = true :=
          ih (collapsedNl_tail _ _ hx)
        simp only [collapsedNl]
        rw [h1, h2]
        rfl

theorem collapsedNl_append_right (xs ys : List Char)
    (h : collapsedNl (xs ++ ys) = true) : collapsedNl ys = true := by
  induction xs with
  | nil => exact h
  | cons x xs' ih => exact ih (collapsedNl_tail _ _ h)

theorem all_dropWhile_of_all (p q : Char → Bool) (l : List Char)
    (h : l.all q = true) : (l.dropWhile p).all q = true := by
  induction l with
  | nil => exact h
  | cons c t ih =>
    rw [List.all_cons, Bool.and_eq_true] at h
    by_cases hp : p c
    · rw [List.dropWhile_cons_of_pos hp]; exact ih h.2
    · rw [List.dropWhile_cons_of_neg hp, List.all_cons, Bool.and_eq_true]
      exact ⟨h.1, h.2⟩

theorem crOk_dropWhile (p : Char → Bool) (l : List Char)
    (h : crOk l = true) : crOk (l.dropWhile p) = true := by
  induction l with
  | nil => exact h
  | cons c t ih =>
    by_cases hp : p c
    · rw [List.dropWhile_cons_of_pos hp]; exact ih (crOk_tail _ _ h)
    · rw [List.dropWhile_cons_of_neg hp]; exact h

theorem collapsedNl_dropWhile (p : Char → Bool) (l : List Char)
    (h : collapsedNl l = true) : collapsedNl (l.dropWhile p) = true := by
  induction l with
  | nil => exact h
  | cons c t ih =>
    by_cases hp : p c
    · rw [List.dropWhile_cons_of_pos hp]; exact ih (collapsedNl_tail _ _ h)
    · rw [List.dropWhile_cons_of_neg hp]; exact h

theorem trimStartL_idem (l : List Char) :
    trimStartL (trimStartL l) = trimStartL l := by
  unfold trimStartL
  induction l with
  | nil => rfl
  | cons c t ih =>
    by_cases h : isJsWhitespace c
    · rw [List.dropWhile_cons_of_pos h]; exact ih
    · rw [List.dropWhile_cons_of_neg h, List.dropWhile_cons_of_neg h]

theorem trimEndL_idem (l : List Char) :
    trimEndL (trimEndL l) = trimEndL l := by
  show trimEndL ((l.reverse.dropWhile isJsWhitespace).reverse) = _
  unfold trimEndL
  rw [List.reverse_reverse]
  have h := trimStartL_idem l.reverse
  unfold trimStartL at h
  rw [h]

theorem trimEndL_cons (c : Char) (t : List Char) :
    trimEndL (c :: t) =
      if trimEndL t = [] then (if isJsWhitespace c then [] else [c])
      else c :: trimEndL t := by
  unfold trimEndL
  rw [List.reverse_cons, List.dropWhile_append]
  by_cases h : (t.reverse.dropWhile isJsWhitespace).isEmpty
  · rw [if_pos h]
    rw [List.isEmpty_iff] at h
    rw [if_pos (by rw [h]; rfl)]
    by_cases hc : isJsWhitespace c
    · simp [List.dropWhile_cons_of_pos hc, hc]
    · simp [List.dropWhile_cons_of_neg hc, hc]
  · rw [if_neg h]
    rw [List.isEmpty_iff] at h
    rw [if_neg (by simpa using h)]
    rw [List.reverse_append]
    rfl

theorem trimEndL_prefix (l : List Char) : ∃ ys, trimEndL l ++ ys = l := by
  induction l with
  | nil => exact ⟨[], rfl⟩
  | cons c t ih =>
    rw [trimEndL_cons]
    by_cases h0 : trimEndL t = []
    · rw [if_pos h0]
      by_cases hc : isJsWhitespace c
      · rw [if_pos hc]; exact ⟨c :: t, rfl⟩
      · rw [if_neg hc]; exact ⟨t, rfl⟩
    · rw [if_neg h0]
      obtain ⟨ys, hys⟩ := ih
      exact ⟨ys, by rw [List.cons_append, hys]⟩

theorem trimEndL_cons_head (c : Char) (t : List Char)
    (h : trimEndL (c :: t) ≠ []) : ∃ X, trimEndL (c :: t) = c :: X := by
  rw [trimEndL_cons] at h ⊢
  by_cases h0 : trimEndL t = []
  · rw [if_pos h0] at h ⊢
    by_cases hc : isJsWhitespace c
    · rw [if_pos hc] at h; exact absurd rfl h
    · rw [if_neg hc]; exact ⟨[], rfl⟩
  · rw [if_neg h0]; exact ⟨trimEndL t, rfl⟩

theorem all_trimEndL_of_all (q : Char → Bool) (l : List Char)
    (h : l.all q = true) : (trimEndL l).all q = true := by
  unfold trimEndL
  rw [List.all_reverse]
  exact all_dropWhile_of_all _ _ _ (by rw [List.all_reverse]; exact h)

theorem collapsedNl_trimEndL (l : List Char) (h : collapsedNl l = true) :
    collapsedNl (trimEndL l) = true := by
  obtain ⟨ys, hys⟩ := trimEndL_prefix l
  exact collapsedNl_append_left _ ys (by rw [hys]; exact h)

theorem crOk_trimEndL (l : List Char) (h : crOk l = true) :
    crOk (trimEndL l) = true := by
  induction l with
  | nil => exact h
  | cons c t ih =>
    rw [trimEndL_cons]
    by_cases h0 : trimEndL t = []
    · rw [if_pos h0]
      by_cases hc : isJsWhitespace c
      · rw [if_pos hc]; rfl
      · rw [if_neg hc]
        have hcr : c ≠ '\r' := by
          intro hh
          exact hc (by rw [hh]; decide)
        simp [crOk, hcr]
    · rw [if_neg h0]
      have htt : crOk (trimEndL t) = true := ih (crOk_tail _ _ h)
      by_cases hcr : c = '\r'
      · subst hcr
        obtain ⟨t', rfl⟩ := crOk_cons_cr t h
        obtain ⟨X, hX⟩ := trimEndL_cons_head '\n' t' h0
        rw [hX]
        rw [hX] at htt
        simpa [crOk] using htt
      · rw [crOk_cons_of_ne _ _ hcr]
        exact htt

theorem trimStartL_of_head_fix (l : List Char) (h : trimStartL l = l) :
    trimStartL (trimEndL l) = trimEndL l := by
  cases l with
  | nil => rfl
  | cons c t =>
    have hc : ¬ isJsWhitespace c = true := by
      intro hws
      unfold trimStartL at h
      rw [List.dropWhile_cons_of_pos hws] at h
      have := congrArg List.length h
      have hle : (t.dropWhile isJsWhitespace).length ≤ t.length :=
        trimStartL_length_le t
      simp at this
      omega
    by_cases h0 : trimEndL (c :: t) = []
    · rw [h0]; rfl
    · obtain ⟨X, hX⟩ := trimEndL_cons_head c t h0
      rw [hX]
      unfold trimStartL
      rw [List.dropWhile_cons_of_neg hc]

theorem trimL_idem (l : List Char) : trimL (trimL l) = trimL l := by
  unfold trimL
  rw [trimStartL_of_head_fix (trimStartL l) (trimStartL_idem l), trimEndL_idem]

/-! ### `removeCr` lemmas -/

theorem all_removeCr_of_all (q : Char → Bool) (l : List Char)
    (h : l.all q = true) : (removeCr l).all q = true := by
  induction l with
  | nil => exact h
  | cons c t ih =>
    rw [List.all_cons, Bool.and_eq_true] at h
    by_cases hc : c = '\r' ∧ t.head? ≠ some '\n'
    · rw [show removeCr (c :: t) = removeCr t by rw [removeCr, if_pos hc]]
      exact ih h.2
    · rw [show removeCr (c :: t) = c :: removeCr t by rw [removeCr, if_neg hc]]
      rw [List.all_cons, Bool.and_eq_true]
      exact ⟨h.1, ih h.2⟩

theorem crOk_removeCr (l : List Char) : crOk (removeCr l) = true := by
  induction l with
  | nil => rfl
  | cons c t ih =>
    by_cases hc : c = '\r' ∧ t.head? ≠ some '\n'
    · rw [show removeCr (c :: t) = removeCr t by rw [removeCr, if_pos hc]]
      exact ih
    · rw [show removeCr (c :: t) = c :: removeCr t by rw [removeCr, if_neg hc]]
      by_cases hcr : c = '\r'
      · subst hcr
        push_neg at hc
        obtain ⟨t', rfl⟩ : ∃ t', t = '\n' :: t' := by
          cases t with
          | nil => simp at hc
          | cons d t' =>
            have := hc rfl
            simp at this
            exact ⟨t', by rw [this]⟩
        rw [show removeCr ('\n' :: t') = '\n' :: removeCr t' by
          rw [removeCr, if_neg (by simp)]]
        rw [show removeCr ('\n' :: t') = '\n' :: removeCr t' by
          rw [removeCr, if_neg (by simp)]] at ih
        simpa [crOk] using ih
      · rw [crOk_cons_of_ne _ _ hcr]
        exact ih

theorem removeCr_fix (l : List Char) (h : crOk l = true) : removeCr l = l := by
  induction l with
  | nil => rfl
  | cons c t ih =>
    by_cases hcr : c = '\r'
    · subst hcr
      obtain ⟨t', rfl⟩ := crOk_cons_cr t h
      rw [show removeCr ('\r' :: '\n' :: t') = '\r' :: removeCr ('\n' :: t') by
        rw [removeCr, if_neg (by simp)]]
      rw [ih (crOk_tail _ _ h)]
    · rw [show removeCr (c :: t) = c :: removeCr t by
        rw [removeCr, if_neg (by simp [hcr])]]
      rw [ih (crOk_tail _ _ h)]

/-! ### `removeNul` lemmas -/

theorem all_filter_of_all (p q : Char → Bool) (l : List Char)
    (h : l.all q = true) : (l.filter p).all q = true := by
  rw [List.all_eq_true] at h ⊢
  intro x hx
  exact h x (List.mem_of_mem_filter hx)

theorem noNul_removeNul (l : List Char) : noNul (removeNul l) = true := by
  unfold noNul removeNul
  rw [List.all_eq_true]
  intro x hx
  exact (List.mem_filter.mp hx).2

theorem removeNul_fix (l : List Char) (h : noNul l = true) :
    removeNul l = l := by
  unfold removeNul
  rw [List.filter_eq_self]
  unfold noNul at h
  rw [List.all_eq_true] at h
  exact h

theorem crOk_filter (p : Char → Bool) (hn : p '\n' = true) (l : List Char)
    (h : crOk l = true) : crOk (l.filter p) = true := by
  induction l with
  | nil => exact h
  | cons c t ih =>
    by_cases hp : p c
    · rw [List.filter_cons_of_pos hp]
      by_cases hcr : c = '\r'
      · subst hcr
        obtain ⟨t', rfl⟩ := crOk_cons_cr t h
        rw [List.filter_cons_of_pos hn]
        have hf : crOk (('\n' :: t').filter p) = true := ih (crOk_tail _ _ h)
        rw [List.filter_cons_of_pos hn] at hf
        simpa [crOk] using hf
      · rw [crOk_cons_of_ne _ _ hcr]
        exact ih (crOk_tail _ _ h)
    · rw [List.filter_cons_of_neg hp]
      exact ih (crOk_tail _ _ h)

/-! ### `collapseNl` lemmas -/

theorem collapseNlGo_cons_nl (p : Nat) (t : List Char) :
    collapseNlGo p ('\n' :: t) = collapseNlGo (p + 1) t := rfl

theorem collapseNlGo_cons_ne (p : Nat) (c : Char) (t : List Char)
    (h : c ≠ '\n') :
    collapseNlGo p (c :: t) = nlRun p ++ c :: collapseNlGo 0 t := by
  rw [collapseNlGo.eq_def]
  split <;> simp_all

theorem nlRun_eq_replicate (p : Nat) :
    nlRun p = List.replicate (if 3 ≤ p then 2 else p) '\n' := by
  unfold nlRun
  split <;> rfl

theorem all_replicate_of (n : Nat) (a : Char) (q : Char → Bool)
    (h : q a = true) : (List.replicate n a).all q = true := by
  rw [List.all_eq_true]
  intro x hx
  rw [List.eq_of_mem_replicate hx]
  exact h

theorem crOk_append_replicate_nl (n : Nat) (z : List Char)
    (h : crOk z = true) : crOk (List.replicate n '\n' ++ z) = true := by
  induction n with
  | zero => exact h
  | succ k ih =>
    rw [List.replicate_succ, List.cons_append, crOk_cons_of_ne _ _ (by decide)]
    exact ih

theorem crOk_nlRun_append (p : Nat) (z : List Char) (h : crOk z = true) :
    crOk (nlRun p ++ z) = true := by
  rw [nlRun_eq_replicate]
  exact crOk_append_replicate_nl _ z h

theorem collapseNlGo_head (l : List Char) :
    ∀ p, 1 ≤ p → ∃ X, collapseNlGo p l = '\n' :: X := by
  induction l with
  | nil =>
    intro p hp
    show ∃ X, nlRun p = '\n' :: X
    rw [nlRun_eq_replicate]
    by_cases h3 : 3 ≤ p
    · rw [if_pos h3]; exact ⟨['\n'], rfl⟩
    · rw [if_neg h3]
      obtain ⟨k, rfl⟩ : ∃ k, p = k + 1 := ⟨p - 1, by omega⟩
      rw [List.replicate_succ]
      exact ⟨List.replicate k '\n', rfl⟩
  | cons c t ih =>
    intro p hp
    by_cases hc : c = '\n'
    · subst hc
      rw [collapseNlGo_cons_nl]
      exact ih (p + 1) (by omega)
    · rw [collapseNlGo_cons_ne p c t hc, nlRun_eq_replicate]
      by_cases h3 : 3 ≤ p
      · rw [if_pos h3]; exact ⟨'\n' :: c :: collapseNlGo 0 t, rfl⟩
      · rw [if_neg h3]
        obtain ⟨k, rfl⟩ : ∃ k, p = k + 1 := ⟨p - 1, by omega⟩
        rw [List.replicate_succ]
        exact ⟨List.replicate k '\n' ++ c :: collapseNlGo 0 t, rfl⟩

theorem crOk_collapseNlGo (l : List Char) :
    ∀ p, crOk l = true → crOk (collapseNlGo p l) = true := by
  induction l with
  | nil =>
    intro p _
    show crOk (nlRun p) = true
    have := crOk_nlRun_append p [] rfl
    simpa using this
  | cons c t ih =>
    intro p h
    by_cases hc : c = '\n'
    · subst hc
      rw [collapseNlGo_cons_nl]
      exact ih (p + 1) (crOk_tail _ _ h)
    · rw [collapseNlGo_cons_ne p c t hc]
      apply crOk_nlRun_append
      by_cases hcr : c = '\r'
      · subst hcr
        obtain ⟨t', rfl⟩ := crOk_cons_cr t h
        have hX := ih 0 (crOk_tail _ _ h)
        rw [collapseNlGo_cons_nl] at hX
        obtain ⟨Y, hY⟩ := collapseNlGo_head t' 1 (by omega)
        rw [collapseNlGo_cons_nl, hY]
        rw [hY] at hX
        simpa [crOk] using hX
      · rw [crOk_cons_of_ne _ _ hcr]
        exact ih 0 (crOk_tail _ _ h)

theorem collapsedNl_cons3_of_ne (a b c : Char) (l : List Char)
    (h : c ≠ '\n') :
    collapsedNl (a :: b :: c :: l) = collapsedNl (b :: c :: l) := by
  simp [collapsedNl, h]

theorem collapsedNl_replicate_cons (m : Nat) (hm : m ≤ 2) (c : Char)
    (Y : List Char) (h : c ≠ '\n') :
    collapsedNl (List.replicate m '\n' ++ c :: Y) = collapsedNl (c :: Y) := by
  interval_cases m
  · rfl
  · show collapsedNl ('\n' :: c :: Y) = collapsedNl (c :: Y)
    exact collapsedNl_cons2_of_ne _ _ _ h
  · show collapsedNl ('\n' :: '\n' :: c :: Y) = collapsedNl (c :: Y)
    rw [collapsedNl_cons3_of_ne _ _ _ _ h, collapsedNl_cons2_of_ne _ _ _ h]

theorem collapsedNl_nlRun_cons (p : Nat) (c : Char) (Y : List Char)
    (h : c ≠ '\n') :
    collapsedNl (nlRun p ++ c :: Y) = collapsedNl (c :: Y) := by
  rw [nlRun_eq_replicate]
  apply collapsedNl_replicate_cons
  · split <;> omega
  · exact h

theorem collapsedNl_collapseNlGo (l : List Char) :
    ∀ p, collapsedNl (collapseNlGo p l) = true := by
  induction l with
  | nil =>
    intro p
    show collapsedNl (nlRun p) = true
    apply collapsedNl_short
    rw [nlRun_eq_replicate, List.length_replicate]
    split <;> omega
  | cons c t ih =>
    intro p
    by_cases hc : c = '\n'
    · subst hc
      rw [collapseNlGo_cons_nl]
      exact ih (p + 1)
    · rw [collapseNlGo_cons_ne p c t hc, collapsedNl_nlRun_cons p c _ hc,
        collapsedNl_cons_of_ne _ _ hc]
      exact ih 0

theorem collapsedNl_replicate_bound (p : Nat) (z : List Char)
    (h : collapsedNl (List.replicate p '\n' ++ z) = true) : p ≤ 2 := by
  by_contra hp
  obtain ⟨k, rfl⟩ : ∃ k, p = k + 3 := ⟨p - 3, by omega⟩
  rw [List.replicate_succ, List.replicate_succ, List.replicate_succ] at h
  simp [collapsedNl] at h

theorem replicate_append_cons_nl (p : Nat) (t : List Char) :
    List.replicate p '\n' ++ '\n' :: t = List.replicate (p + 1) '\n' ++ t := by
  rw [List.append_cons, ← List.replicate_succ']

theorem collapseNlGo_fix (l : List Char) :
    ∀ p, collapsedNl (List.replicate p '\n' ++ l) = true →
      collapseNlGo p l = List.replicate p '\n' ++ l := by
  induction l with
  | nil =>
    intro p h
    have hp : p ≤ 2 := collapsedNl_replicate_bound p [] (by simpa using h)
    show nlRun p = _
    rw [nlRun_eq_replicate, if_neg (by omega), List.append_nil]
  | cons c t ih =>
    intro p h
    by_cases hc : c = '\n'
    · subst hc
      rw [collapseNlGo_cons_nl, replicate_append_cons_nl]
      exact ih (p + 1) (by rw [← replicate_append_cons_nl]; exact h)
    · have hp : p ≤ 2 := collapsedNl_replicate_bound p (c :: t) h
      have ht : collapsedNl t = true := by
        apply collapsedNl_append_right (List.replicate p '\n' ++ [c]) t
        rw [List.append_assoc]
        exact h
      rw [collapseNlGo_cons_ne p c t hc, nlRun_eq_replicate, if_neg (by omega),
        ih 0 (by simpa using ht)]
      simp

theorem collapseNl_fix (l : List Char) (h : collapsedNl l = true) :
    collapseNl l = l := by
  have := collapseNlGo_fix l 0 (by simpa using h)
  simpa using this

/-! ### ANSI / OSC / DCS removal is inert on ESC-free strings -/

theorem escFree_cons_iff (c : Char) (l : List Char) :
    escFree (c :: l) = true ↔
      (c ≠ '\x1b' ∧ c ≠ '\x9b' ∧ escFree l = true) := by
  unfold escFree
  rw [List.all_cons, Bool.and_eq_true, Bool.and_eq_true]
  simp [and_assoc]

theorem stripAnsiGo_escFree (fuel : Nat) :
    ∀ l, escFree l = true → stripAnsiGo fuel l = l := by
  induction fuel with
  | zero => intro l _; rfl
  | succ fuel ih =>
    intro l h
    cases l with
    | nil => rfl
    | cons c rest =>
      obtain ⟨h1, h2, h3⟩ := (escFree_cons_iff c rest).mp h
      simp only [stripAnsiGo]
      rw [if_neg h1, if_neg h2, ih rest h3]

theorem stripAnsi_escFree (l : List Char) (h : escFree l = true) :
    stripAnsi l = l := stripAnsiGo_escFree _ l h

theorem removeOscGo_escFree (fuel : Nat) :
    ∀ l, escFree l = true → removeOscGo fuel l = l := by
  induction fuel with
  | zero => intro l _; rfl
  | succ fuel ih =>
    intro l h
    cases l with
    | nil => rfl
    | cons c rest =>
      obtain ⟨h1, _, h3⟩ := (escFree_cons_iff c rest).mp h
      simp only [removeOscGo]
      rw [if_neg (fun hh => h1 hh.1), ih rest h3]

theorem removeOsc_escFree (l : List Char) (h : escFree l = true) :
    removeOsc l = l := removeOscGo_escFree _ l h

theorem removeDcsGo_escFree (fuel : Nat) :
    ∀ l, escFree l = true → removeDcsGo fuel l = l := by
  induction fuel with
  | zero => intro l _; rfl
  | succ fuel ih =>
    intro l h
    cases l with
    | nil => rfl
    | cons c rest =>
      obtain ⟨h1, _, h3⟩ := (escFree_cons_iff c rest).mp h
      simp only [removeDcsGo]
      rw [if_neg (fun hh => h1 hh.1), ih rest h3]

theorem removeDcs_escFree (l : List Char) (h : escFree l = true) :
    removeDcs l = l := removeDcsGo_escFree _ l h

theorem all_collapseNlGo (q : Char → Bool) (hn : q '\n' = true)
    (l : List Char) :
    ∀ p, l.all q = true → (collapseNlGo p l).all q = true := by
  induction l with
  | nil =>
    intro p _
    show (nlRun p).all q = true
    rw [nlRun_eq_replicate]
    exact all_replicate_of _ _ _ hn
  | cons c t ih =>
    intro p h
    rw [List.all_cons, Bool.and_eq_true] at h
    by_cases hc : c = '\n'
    · subst hc
      rw [collapseNlGo_cons_nl]
      exact ih (p + 1) h.2
    · rw [collapseNlGo_cons_ne p c t hc, List.all_append, Bool.and_eq_true]
      refine ⟨?_, ?_⟩
      · rw [nlRun_eq_replicate]
        exact all_replicate_of _ _ _ hn
      · rw [List.all_cons, Bool.and_eq_true]
        exact ⟨h.1, ih 0 h.2⟩

theorem all_trimL_of_all (q : Char → Bool) (l : List Char)
    (h : l.all q = true) : (trimL l).all q = true := by
  unfold trimL trimStartL
  exact all_trimEndL_of_all _ _ (all_dropWhile_of_all _ _ _ h)

theorem crOk_trimL (l : List Char) (h : crOk l = true) :
    crOk (trimL l) = true := by
  unfold trimL trimStartL
  exact crOk_trimEndL _ (crOk_dropWhile _ _ h)

theorem collapsedNl_trimL (l : List Char) (h : collapsedNl l = true) :
    collapsedNl (trimL l) = true := by
  unfold trimL trimStartL
  exact collapsedNl_trimEndL _ (collapsedNl_dropWhile _ _ h)

/-- C5 (amended): `cleanTerminalOutput` is idempotent on every input that
contains no ESC (`0x1B`) and no CSI (`0x9B`) byte.  (On inputs containing
an ESC byte idempotence can fail: removing a NUL or lone CR may splice the
ESC together with a bracket into a new ANSI code that only the second
application strips; see `cleanTerminalOutput_not_idempotent`.) -/
theorem cleanTerminalOutput_idempotent_escFree (l : List Char)
    (h : escFree l = true) :
    cleanTerminalOutput (cleanTerminalOutput l) = cleanTerminalOutput l := by
  unfold cleanTerminalOutput
  rw [stripAnsi_escFree l h]
  have hEr : escFree (removeCr l) = true := all_removeCr_of_all _ l h
  have hCr : crOk (removeCr l) = true := crOk_removeCr l
  have hEn : escFree (removeNul (removeCr l)) = true :=
    all_filter_of_all _ _ _ hEr
  have hCn : crOk (removeNul (removeCr l)) = true :=
    crOk_filter _ (by decide) _ hCr
  have hNn : noNul (removeNul (removeCr l)) = true := noNul_removeNul _
  rw [removeOsc_escFree _ hEn, removeDcs_escFree _ hEn]
  have hEc : escFree (collapseNl (removeNul (removeCr l))) = true :=
    all_collapseNlGo _ (by decide) _ 0 hEn
  have hCc : crOk (collapseNl (removeNul (removeCr l))) = true :=
    crOk_collapseNlGo _ 0 hCn
  have hNc : noNul (collapseNl (removeNul (removeCr l))) = true :=
    all_collapseNlGo _ (by decide) _ 0 hNn
  have hDc : collapsedNl (collapseNl (removeNul (removeCr l))) = true :=
    collapsedNl_collapseNlGo _ 0
  have hEy : escFree (trimL (collapseNl (removeNul (removeCr l)))) = true :=
    all_trimL_of_all _ _ hEc
  have hCy : crOk (trimL (collapseNl (removeNul (removeCr l)))) = true :=
    crOk_trimL _ hCc
  have hNy : noNul (trimL (collapseNl (removeNul (removeCr l)))) = true :=
    all_trimL_of_all _ _ hNc
  have hDy : collapsedNl (trimL (collapseNl (removeNul (removeCr l)))) =
      true := collapsedNl_trimL _ hDc
  rw [stripAnsi_escFree _ hEy, removeCr_fix _ hCy, removeNul_fix _ hNy,
    removeOsc_escFree _ hEy, removeDcs_escFree _ hEy, collapseNl_fix _ hDy,
    trimL_idem]

/-- Witness for `cleanTerminalOutput_idempotent_escFree` on a concrete
ESC-free input exercising NUL, lone CR, CRLF, a long newline run and
surrounding whitespace. -/
theorem cleanTerminalOutput_idempotent_witness :
    cleanTerminalOutput (cleanTerminalOutput
        "  a\x00b\rc\r\nd\n\n\n\ne  ".toList) =
      cleanTerminalOutput "  a\x00b\rc\r\nd\n\n\n\ne  ".toList :=
  cleanTerminalOutput_idempotent_escFree _ (by decide)

/-- C5 counterexample: on `"\x1b\x00[31m"` the first application only
removes the NUL byte, splicing `ESC` and `[31m` into the ANSI color code
`"\x1b[31m"`, which the second application strips entirely; hence
`f(f(x)) = "" ≠ "\x1b[31m" = f(x)` and `stripControlSequences` is not
idempotent for every input. -/
theorem cleanTerminalOutput_not_idempotent :
    cleanTerminalOutput (cleanTerminalOutput
        ['\x1b', '\x00', '[', '3', '1', 'm']) ≠
      cleanTerminalOutput ['\x1b', '\x00', '[', '3', '1', 'm'] := by
  decide

/-! ## Properties of the ThreadStreamer (claims C1, C4, C6) -/

theorem chunkText_isSome (text : List Char) (maxLen : Nat)
    (hm : 1 ≤ maxLen) : ∃ cs, chunkText text maxLen = some cs := by
  obtain ⟨cs, _, _, hck, _⟩ := (chunkText_roundTrip text maxLen hm).2
  exact ⟨cs, hck⟩

theorem postLoop_buffer (env : List DestOutcome) :
    ∀ (cs : List (List Char)) (st : StreamerState) (i : Nat),
      (postLoop env st i cs).1.buffer = st.buffer := by
  intro cs
  induction cs with
  | nil => intro st i; rfl
  | cons c cs ih =>
    intro st i
    simp only [postLoop]
    cases houtc : outcomeAt env i <;> simp [houtc, ih]

theorem flushBody_buffer (st : StreamerState) (env : List DestOutcome)
    (i : Nat) (chunks : List (List Char)) (content : List Char) :
    (flushBody st env i chunks content).1.buffer = st.buffer := by
  unfold flushBody
  split
  · cases houtc : outcomeAt env i <;> simp [houtc]
  · cases houtc : outcomeAt env i with
    | ok ts =>
      simp only [houtc]
      by_cases hlen : chunks.length > 1
      · simp [hlen, postLoop_buffer]
      · simp [hlen]
    | notFound => simp [houtc]
    | otherErr => simp [houtc]

theorem flushBody_calls_ne_nil (st : StreamerState) (env : List DestOutcome)
    (i : Nat) (chunks : List (List Char)) (content : List Char) :
    (flushBody st env i chunks content).2.1 ≠ [] := by
  unfold flushBody
  split
  · cases houtc : outcomeAt env i <;> simp [houtc]
  · cases houtc : outcomeAt env i with
    | ok ts =>
      simp only [houtc]
      by_cases hlen : chunks.length > 1
      · simp [hlen]
      · simp [hlen]
    | notFound => simp [houtc]
    | otherErr => simp [houtc]

theorem flushGo_buffer :
    ∀ (fuel : Nat) (st : StreamerState) (env : List DestOutcome) (i : Nat),
      (flushGo fuel st env i).1.buffer = st.buffer := by
  intro fuel
  induction fuel with
  | zero => intro st env i; rfl
  | succ fuel ih =>
    intro st env i
    simp only [flushGo]
    by_cases hb : (trimL st.buffer).isEmpty
    · rw [if_pos hb]
    · rw [if_neg hb]
      cases hck : chunkText st.buffer 3900 with
      | none => rfl
      | some chunks =>
        have hfb := flushBody_buffer st env i chunks (chunks.getLast?.getD [])
        cases herr : (flushBody st env i chunks (chunks.getLast?.getD [])).2.2.2
          with
        | none => simp [herr, hfb]
        | some e =>
          cases e with
          | other => simp [herr, hfb]
          | notFound =>
            simp only [herr]
            by_cases hts :
              (flushBody st env i chunks
                (chunks.getLast?.getD [])).1.lastMessageTs.isSome
            · rw [if_pos hts]
              simp only [ih]
              exact hfb
            · rw [if_neg hts]; exact hfb

theorem flushGo_calls_ne_nil (fuel : Nat) (st : StreamerState)
    (env : List DestOutcome) (i : Nat)
    (hb : ¬(trimL st.buffer).isEmpty = true) :
    (flushGo (fuel + 1) st env i).2.1 ≠ [] := by
  simp only [flushGo]
  rw [if_neg hb]
  obtain ⟨chunks, hck⟩ := chunkText_isSome st.buffer 3900 (by omega)
  rw [hck]
  have hfb := flushBody_calls_ne_nil st env i chunks (chunks.getLast?.getD [])
  cases herr : (flushBody st env i chunks (chunks.getLast?.getD [])).2.2.2 with
  | none => simpa [herr] using hfb
  | some e =>
    cases e with
    | other => simpa [herr] using hfb
    | notFound =>
      simp only [herr]
      by_cases hts :
        (flushBody st env i chunks (chunks.getLast?.getD [])).1.lastMessageTs.isSome
      · rw [if_pos hts]
        simp only [ne_eq, List.append_eq_nil]
        intro hcon
        exact hfb hcon.1
      · rw [if_neg hts]; exact hfb

/-- C1 (corrected/amended): `flush` never clears the `DispatchBuffer` — the
buffer survives every flush (successful or not, any fuel), so a subsequent
flush with no intervening append delivers the buffered content again (it
makes at least one destination call) rather than nothing.  The buffer is
emptied only by `finalize()` and `reset()`. -/
theorem flush_retains_buffer (fuel : Nat) (st : StreamerState)
    (env env2 : List DestOutcome) (i i2 : Nat)
    (hb : ¬(trimL st.buffer).isEmpty = true) :
    (flushGo fuel st env i).1.buffer = st.buffer ∧
    (flushGo (fuel + 1) (flushGo fuel st env i).1 env2 i2).2.1 ≠ [] ∧
    (finalize fuel st env none).1.buffer = [] ∧
    (reset st).buffer = [] := by
  refine ⟨flushGo_buffer fuel st env i, ?_, rfl, rfl⟩
  apply flushGo_calls_ne_nil
  rw [flushGo_buffer fuel st env i]
  exact hb

/-- Witness for `flush_retains_buffer` at a concrete dispatcher state. -/
theorem flush_retains_buffer_witness :
    (flushGo 1 ⟨"hello".toList, none, false, 0, false⟩ [DestOutcome.ok 7]
        0).1.buffer = "hello".toList ∧
    (flushGo 2 (flushGo 1 ⟨"hello".toList, none, false, 0, false⟩
        [DestOutcome.ok 7] 0).1 [DestOutcome.ok 8] 0).2.1 ≠ [] ∧
    (finalize 1 ⟨"hello".toList, none, false, 0, false⟩ [DestOutcome.ok 7]
        none).1.buffer = [] ∧
    (reset ⟨"hello".toList, none, false, 0, false⟩).buffer = [] :=
  flush_retains_buffer 1 ⟨"hello".toList, none, false, 0, false⟩
    [DestOutcome.ok 7] [DestOutcome.ok 8] 0 0 (by decide)

set_option maxRecDepth 10000 in
/-- C1 counterexample: from the state with buffer `"hello"`, no remembered
unit and counter 0, the flush succeeds (the single post is answered `ok`),
yet the buffer still holds `"hello"` — not empty as the claim states — and
a second flush with no intervening append delivers a unit again (an
in-place update of the posted message) instead of delivering nothing. -/
theorem flush_clears_buffer_counterexample :
    (flushGo 2 ⟨"hello".toList, none, false, 0, false⟩ [DestOutcome.ok 7]
        0).1.buffer ≠ [] ∧
    (flushGo 2 (flushGo 2 ⟨"hello".toList, none, false, 0, false⟩
          [DestOutcome.ok 7] 0).1 [DestOutcome.ok 8] 0).2.1 =
      [DestCall.update 7 "hello".toList] := by
  decide

theorem lastIndexOfGo_all_ne (needle : List Char) (c0 : Char)
    (fromIdx : Nat) (h0 : needle.head? = some c0) :
    ∀ (s : List Char) (k : Nat), (∀ x ∈ s, x ≠ c0) →
      lastIndexOfGo needle fromIdx s k none = none := by
  intro s
  induction s with
  | nil => intro k _; rfl
  | cons a t ih =>
    intro k hmem
    have hpre : needle.isPrefixOf (a :: t) = false := by
      cases needle with
      | nil => simp at h0
      | cons n0 nt =>
        simp only [List.head?_cons, Option.some_inj] at h0
        have ha : a ≠ n0 := by
          rw [h0]
          exact hmem a (List.mem_cons_self a t)
        have hb : (n0 == a) = false :=
          beq_eq_false_iff_ne.mpr (fun hh => ha hh.symm)
        show ((n0 == a) && nt.isPrefixOf t) = false
        rw [hb, Bool.false_and]
    simp only [lastIndexOfGo, hpre, Bool.and_false, Bool.false_eq_true,
      if_false]
    exact ih (k + 1) (fun x hx => hmem x (List.mem_cons_of_mem _ hx))

theorem lastIndexOfFrom_replicate_a (needle : List Char) (c0 : Char)
    (h0 : needle.head? = some c0) (hc : c0 ≠ 'a') (n fromIdx : Nat) :
    lastIndexOfFrom (List.replicate n 'a') needle fromIdx = none := by
  unfold lastIndexOfFrom
  exact lastIndexOfGo_all_ne needle c0 fromIdx h0 _ 0
    (fun x hx hh => hc (by rw [← hh, List.eq_of_mem_replicate hx]))

theorem breakPointOf_replicate_a (n maxLen : Nat) :
    breakPointOf (List.replicate n 'a') maxLen = maxLen := by
  unfold breakPointOf breakPointLine breakPointSpace
  rw [lastIndexOfFrom_replicate_a ['\n', '\n'] '\n' rfl (by decide),
    lastIndexOfFrom_replicate_a ['\n'] '\n' rfl (by decide),
    lastIndexOfFrom_replicate_a [' '] ' ' rfl (by decide)]

theorem trimStartL_replicate_a (n : Nat) :
    trimStartL (List.replicate n 'a') = List.replicate n 'a' := by
  cases n with
  | zero => rfl
  | succ k =>
    rw [List.replicate_succ]
    exact List.dropWhile_cons_of_neg (by decide)

theorem trimEndL_replicate_a (n : Nat) :
    trimEndL (List.replicate n 'a') = List.replicate n 'a' := by
  unfold trimEndL
  rw [List.reverse_replicate]
  have h := trimStartL_replicate_a n
  unfold trimStartL at h
  rw [h, List.reverse_replicate]

theorem trimL_replicate_a (n : Nat) :
    trimL (List.replicate n 'a') = List.replicate n 'a' := by
  unfold trimL
  rw [trimStartL_replicate_a, trimEndL_replicate_a]

theorem chunkText_replicate_4000 :
    chunkText (List.replicate 4000 'a') 3900 =
      some [List.replicate 3900 'a', List.replicate 100 'a'] := by
  unfold chunkText
  rw [List.length_replicate, if_neg (by omega)]
  show chunkTextGo (4000 + 1) _ 3900 = _
  rw [chunkTextGo]
  rw [if_neg (by simp)]
  rw [List.length_replicate, if_neg (by omega)]
  rw [breakPointOf_replicate_a, List.take_replicate, List.drop_replicate]
  rw [show min 3900 4000 = 3900 from by omega,
    show (4000 - 3900 : Nat) = 100 from by omega]
  rw [trimStartL_replicate_a]
  show (chunkTextGo (3999 + 1) _ 3900).map _ = _
  rw [chunkTextGo]
  rw [if_neg (by simp)]
  rw [List.length_replicate, if_pos (by omega)]
  rfl

theorem flushGo_of_body_ok (fuel : Nat) (st : StreamerState)
    (env : List DestOutcome) (i : Nat) (chunks : List (List Char))
    (st' : StreamerState) (calls : List DestCall) (i' : Nat)
    (hb : ¬(trimL st.buffer).isEmpty = true)
    (hck : chunkText st.buffer 3900 = some chunks)
    (hbody : flushBody st env i chunks (chunks.getLast?.getD []) =
      (st', calls, i', none)) :
    flushGo (fuel + 1) st env i = (st', calls, i') := by
  simp only [flushGo]
  rw [if_neg hb, hck]
  simp only [hbody]

/-- C4 evaluation: a 4000-character buffer chunks into a 3900-character
first chunk and a 100-character second chunk; `flush` posts the final
(100-character) chunk first and only afterwards posts the earlier
(3900-character) chunk, so delivery units do not reach the destination in
buffer order. -/
theorem flush_multichunk_order :
    (flushGo 2 ⟨List.replicate 4000 'a', none, false, 0, false⟩
        [DestOutcome.ok 1, DestOutcome.ok 2] 0).2.1 =
      [DestCall.post (List.replicate 100 'a'),
        DestCall.post (List.replicate 3900 'a')] ∧
    chunkText (List.replicate 4000 'a') 3900 =
      some [List.replicate 3900 'a', List.replicate 100 'a'] := by
  refine ⟨?_, chunkText_replicate_4000⟩
  have hbody : flushBody ⟨List.replicate 4000 'a', none, false, 0, false⟩
      [DestOutcome.ok 1, DestOutcome.ok 2] 0
      [List.replicate 3900 'a', List.replicate 100 'a']
      ([List.replicate 3900 'a',
        List.replicate 100 'a'].getLast?.getD []) =
      (⟨List.replicate 4000 'a', some 1, false, 2, false⟩,
        [DestCall.post (List.replicate 100 'a'),
          DestCall.post (List.replicate 3900 'a')], 2, none) := by
    rfl
  have hmain := flushGo_of_body_ok 1
    ⟨List.replicate 4000 'a', none, false, 0, false⟩
    [DestOutcome.ok 1, DestOutcome.ok 2] 0
    [List.replicate 3900 'a', List.replicate 100 'a']
    ⟨List.replicate 4000 'a', some 1, false, 2, false⟩
    [DestCall.post (List.replicate 100 'a'),
      DestCall.post (List.replicate 3900 'a')] 2
    (by
      show ¬(trimL (List.replicate 4000 'a')).isEmpty = true
      rw [trimL_replicate_a]
      simp)
    chunkText_replicate_4000 hbody
  rw [show (2 : Nat) = 1 + 1 from rfl, hmain]

/-- C6 (confirmed): when the in-place update fails with
`message_not_found`, `flush` clears the remembered unit id and retries
exactly once as a fresh post; when that post fails the same way no further
call is made (the remembered id is now `none`), for every fuel — the retry
never loops. -/
theorem flush_update_notFound_retries_once (fuel : Nat) (st : StreamerState)
    (ts : Nat) (env : List DestOutcome) (i : Nat) (c : List Char)
    (h1 : st.lastMessageTs = some ts) (h2 : st.messageCount < 5)
    (h3 : chunkText st.buffer 3900 = some [c])
    (hb : ¬(trimL st.buffer).isEmpty = true)
    (h5 : outcomeAt env i = DestOutcome.notFound)
    (h6 : outcomeAt env (i + 1) = DestOutcome.notFound) :
    flushGo (fuel + 2) st env i =
      ({ st with lastMessageTs := none },
        [DestCall.update ts c, DestCall.post c], i + 2) := by
  obtain ⟨buf, lm, fin, mc, db⟩ := st
  simp only at h1 h2 h3 hb
  subst h1
  have hbody1 : flushBody ⟨buf, some ts, fin, mc, db⟩ env i [c] c =
      (⟨buf, some ts, fin, mc, db⟩, [DestCall.update ts c], i + 1,
        some SlackErr.notFound) := by
    unfold flushBody
    rw [dif_pos ⟨rfl, rfl, h2⟩, h5]
    rfl
  have hbody2 : flushBody ⟨buf, none, fin, mc, db⟩ env (i + 1) [c] c =
      (⟨buf, none, fin, mc, db⟩, [DestCall.post c], i + 2,
        some SlackErr.notFound) := by
    unfold flushBody
    rw [dif_neg (by intro hcon; simpa using hcon.1), h6]
  show flushGo (fuel + 1 + 1) _ env i = _
  simp only [flushGo]
  rw [if_neg hb, h3]
  simp only [List.getLast?_singleton, Option.getD_some, hbody1]
  simp only [Option.isSome_some, if_pos]
  rw [if_neg hb, h3]
  simp only [List.getLast?_singleton, Option.getD_some, hbody2]
  rfl

/-- Witness for `flush_update_notFound_retries_once` at buffer `"hi"`,
remembered unit 3, counter 0, both destination calls failing with
`message_not_found`. -/
theorem flush_update_notFound_retries_once_witness :
    chunkText "hi".toList 3900 = some ["hi".toList] ∧
    flushGo 2 ⟨"hi".toList, some 3, false, 0, false⟩
        [DestOutcome.notFound, DestOutcome.notFound] 0 =
      (⟨"hi".toList, none, false, 0, false⟩,
        [DestCall.update 3 "hi".toList, DestCall.post "hi".toList], 2) :=
  ⟨by decide,
    flush_update_notFound_retries_once 0 ⟨"hi".toList, some 3, false, 0,
      false⟩ 3 [DestOutcome.notFound, DestOutcome.notFound] 0 "hi".toList
      rfl (by decide) (by decide) (by decide) (by decide) (by decide)⟩

/-! ## Properties of the SessionManager (claims C2, C7, C8) -/

theorem getSessionForUser_state (st : MgrState) (u : String) :
    (getSessionForUser st u).2 = st ∨ (getSessionForUser st u).1 = none := by
  unfold getSessionForUser
  repeat' split
  all_goals first | exact Or.inl rfl | exact Or.inr rfl

theorem getSessionForUser_some_fix (st : MgrState) (u : String)
    (s : Session) (h : (getSessionForUser st u).1 = some s) :
    getSessionForUser st u = (some s, st) := by
  rcases getSessionForUser_state st u with hst | hnone
  · calc getSessionForUser st u
        = ((getSessionForUser st u).1, (getSessionForUser st u).2) := rfl
      _ = (some s, st) := by rw [h, hst]
  · rw [h] at hnone
    cases hnone

/-- C2 (confirmed): when `getSessionForUser(userId)` returns a session,
`createSession` for that user fails with `SessionExists` carrying that
session's id, and the whole state — store, processes, timers, audit log —
is returned unchanged: no second session is created or persisted. -/
theorem createSession_sessionExists (baseDir : String)
    (resolve : String → String) (st : MgrState)
    (opts : CreateSessionOptions) (env : CreateEnv) (s : Session)
    (h : (getSessionForUser st opts.userId).1 = some s) :
    createSession baseDir resolve st opts env =
      (Except.error (MgrErr.sessionExists s.id), st) := by
  unfold createSession
  rw [getSessionForUser_some_fix st opts.userId s h]

/-- Witness for `createSession_sessionExists`: user `U1` has the live
session `S1`; a second create fails with `SessionExists "S1"` and leaves
the state untouched. -/
theorem createSession_sessionExists_witness :
    (getSessionForUser stOneLive "U1").1 = some sessEx ∧
    createSession "/projects" id stOneLive optsEx envSpawnFail =
      (Except.error (MgrErr.sessionExists "S1"), stOneLive) :=
  ⟨by decide,
    createSession_sessionExists "/projects" id stOneLive optsEx
      envSpawnFail sessEx (by decide)⟩

/-- C7 (confirmed): a spawn failure inside `createSession` propagates as
`SpawnError` and is atomic: the resulting state is exactly the state left
by the (session-free) lookup — in particular, when the store holds no
session id for the user, the state is completely unchanged: no session
record written, no process handle tracked, no session-start audit entry,
no inactivity timer armed. -/
theorem createSession_spawn_fail (baseDir : String)
    (resolve : String → String) (st : MgrState)
    (opts : CreateSessionOptions) (env : CreateEnv)
    (h : (getSessionForUser st opts.userId).1 = none)
    (hspawn : env.spawnOk = false) :
    createSession baseDir resolve st opts env =
      (Except.error MgrErr.spawnError, (getSessionForUser st opts.userId).2) ∧
    (lookupStr st.store.userIndex opts.userId = none →
      createSession baseDir resolve st opts env =
        (Except.error MgrErr.spawnError, st)) := by
  have hmain : createSession baseDir resolve st opts env =
      (Except.error MgrErr.spawnError,
        (getSessionForUser st opts.userId).2) := by
    unfold createSession
    rcases hgg : getSessionForUser st opts.userId with ⟨a, st1⟩
    rw [hgg] at h
    simp only at h
    subst h
    simp [spawnWrapper, hspawn]
  refine ⟨hmain, fun hidx => ?_⟩
  have hg : getSessionForUser st opts.userId = (none, st) := by
    unfold getSessionForUser
    rw [hidx]
  rw [hmain, hg]

/-- Witness for `createSession_spawn_fail` from the empty state. -/
theorem createSession_spawn_fail_witness :
    (getSessionForUser stEmpty "U1").1 = none ∧
    envSpawnFail.spawnOk = false ∧
    (createSession "/projects" id stEmpty optsEx envSpawnFail =
        (Except.error MgrErr.spawnError, (getSessionForUser stEmpty "U1").2) ∧
      (lookupStr stEmpty.store.userIndex "U1" = none →
        createSession "/projects" id stEmpty optsEx envSpawnFail =
          (Except.error MgrErr.spawnError, stEmpty))) :=
  ⟨by decide, by decide,
    createSession_spawn_fail "/projects" id stEmpty optsEx envSpawnFail
      (by decide) (by decide)⟩

/-- C8 (corrected/amended): when the user has no live session,
`sendControl` returns `false` without raising any error, while `sendInput`
fails with `NoSession` — the two operations do not fail the same way. -/
theorem sendControl_vs_sendInput_no_live_session (st : MgrState)
    (u : String) (k : ControlKey) (t : List Char) (now1 now2 : String)
    (h : (getSessionForUser st u).1 = none) :
    mSendControl st u k now1 =
      (Except.ok false, (getSessionForUser st u).2) ∧
    mSendInput st u t now2 =
      (Except.error (MgrErr.noSession u), (getSessionForUser st u).2) := by
  unfold mSendControl mSendInput
  rcases hgg : getSessionForUser st u with ⟨a, st1⟩
  rw [hgg] at h
  simp only at h
  subst h
  exact ⟨rfl, rfl⟩

/-- Witness for `sendControl_vs_sendInput_no_live_session` at the empty
state. -/
theorem sendControl_vs_sendInput_no_live_session_witness :
    mSendControl stEmpty "U1" ControlKey.yes "t1" =
      (Except.ok false, (getSessionForUser stEmpty "U1").2) ∧
    mSendInput stEmpty "U1" "ls".toList "t1" =
      (Except.error (MgrErr.noSession "U1"),
        (getSessionForUser stEmpty "U1").2) :=
  sendControl_vs_sendInput_no_live_session stEmpty "U1" ControlKey.yes
    "ls".toList "t1" "t1" (by decide)

/-- C8 counterexample: with no session at all for user `U1`,
`sendControl` resolves to `false` — it does not fail with `NoSession` as
the claim states. -/
theorem sendControl_no_noSession_counterexample :
    mSendControl stEmpty "U1" ControlKey.yes "t1" =
      (Except.ok false, stEmpty) ∧
    (mSendControl stEmpty "U1" ControlKey.yes "t1").1 ≠
      Except.error (MgrErr.noSession "U1") :=
  ⟨rfl, fun hcon => Except.noConfusion
    (show Except.ok false = Except.error (MgrErr.noSession "U1") from hcon)⟩

/-! ## Properties of the ClaudeCodeWrapper (claim C9) -/

theorem handleExit_pty (w : WrapperState) (c : Int) :
    (handleExit w c).1.pty = false := by
  unfold handleExit
  by_cases h : (trimL w.outputBuffer).isEmpty <;> simp [h]

theorem terminate_noop_of_dead (w : WrapperState) (nat : Bool) (c : Int)
    (h : w.pty = false) : terminate w nat c = (w, []) := by
  unfold terminate
  rw [if_pos h]

theorem terminate_result_dead (w : WrapperState) (nat : Bool) (c : Int) :
    (terminate w nat c).1.pty = false := by
  unfold terminate
  by_cases hp : w.pty = false
  · rw [if_pos hp]; exact hp
  · rw [if_neg hp]
    by_cases hn : nat = true
    · rw [if_pos hn]
      exact handleExit_pty _ c
    · rw [if_neg hn]

/-- C9 (confirmed): `terminate()` is idempotent — it returns immediately
(no state change, no writes, no events) when the handle is already gone,
and a second call after any first call is such a no-op — it resolves on
both race outcomes (natural exit before the forced-kill deadline, or the
deadline firing and killing the handle; the model is total over both), and
after it resolves `isAlive()` is `false`. -/
theorem terminate_spec (w : WrapperState) (nat1 nat2 : Bool)
    (c1 c2 : Int) :
    (w.pty = false → terminate w nat1 c1 = (w, [])) ∧
    isAlive (terminate w nat1 c1).1 = false ∧
    terminate (terminate w nat1 c1).1 nat2 c2 =
      ((terminate w nat1 c1).1, []) := by
  refine ⟨terminate_noop_of_dead w nat1 c1, ?_,
    terminate_noop_of_dead _ nat2 c2 (terminate_result_dead w nat1 c1)⟩
  unfold isAlive
  rw [terminate_result_dead w nat1 c1]
  rfl

/-- Witness for `terminate_spec`: a busy live wrapper whose subprocess
ignores the interrupt (forced-kill path), then a second terminate call. -/
theorem terminate_spec_witness :
    ((⟨true, ProcStatus.busy, "x".toList, true, true, []⟩ :
        WrapperState).pty = false →
      terminate ⟨true, ProcStatus.busy, "x".toList, true, true, []⟩
          false 9 =
        (⟨true, ProcStatus.busy, "x".toList, true, true, []⟩, [])) ∧
    isAlive (terminate ⟨true, ProcStatus.busy, "x".toList, true, true, []⟩
        false 9).1 = false ∧
    terminate (terminate ⟨true, ProcStatus.busy, "x".toList, true, true,
        []⟩ false 9).1 true 0 =
      ((terminate ⟨true, ProcStatus.busy, "x".toList, true, true, []⟩
          false 9).1, []) :=
  terminate_spec ⟨true, ProcStatus.busy, "x".toList, true, true, []⟩
    false true 9 0

/-! ## Properties of the ProjectManager (claim C10) -/

/-- C10 (confirmed): `validateProjectPath` returns a non-null path exactly
when the resolved request has the user's project directory as a plain
string prefix (and then returns the resolved path itself); in particular a
sibling directory whose name merely extends the user's directory name —
here `/projects/u1evil` against user `u1`'s `/projects/u1` — passes the
check. -/
theorem validateProjectPath_prefix_decision :
    (∀ (baseDir : String) (resolve : String → String) (p u : String),
      (validateProjectPath baseDir resolve p u).isSome = true ↔
        (getUserProjectDir baseDir u).toList.isPrefixOf
          (resolve p).toList = true) ∧
    (∀ (baseDir : String) (resolve : String → String) (p u r : String),
      validateProjectPath baseDir resolve p u = some r → r = resolve p) ∧
    validateProjectPath "/projects" id "/projects/u1evil/data" "u1" =
      some "/projects/u1evil/data" := by
  refine ⟨?_, ?_, ?_⟩
  · intro baseDir resolve p u
    unfold validateProjectPath
    by_cases h : (getUserProjectDir baseDir u).toList.isPrefixOf
        (resolve p).toList = true
    · rw [if_pos h]; simpa using h
    · rw [if_neg h]; simpa using h
  · intro baseDir resolve p u r hr
    unfold validateProjectPath at hr
    by_cases h : (getUserProjectDir baseDir u).toList.isPrefixOf
        (resolve p).toList = true
    · rw [if_pos h] at hr
      exact (Option.some_inj.mp hr).symm
    · rw [if_neg h] at hr
      cases hr
  · decide

/-- Witness for `validateProjectPath_prefix_decision`: the prefix
characterisation instantiated at a path inside the user's own directory. -/
theorem validateProjectPath_prefix_decision_witness :
    (validateProjectPath "/projects" id "/projects/u1/x" "u1").isSome =
        true ↔
      (getUserProjectDir "/projects" "u1").toList.isPrefixOf
        (id "/projects/u1/x" : String).toList = true :=
  validateProjectPath_prefix_decision.1 "/projects" id "/projects/u1/x"
    "u1"

end ClaudeWire
